import Mathlib

set_option maxRecDepth 1000000

/-!
Verification of the Conversational Context Session Store of the
bandwidth-buddy repository: a shallow embedding of the
`ChatSessionManager` class and the session-touching parts of the
`/api/evaluate` and `/api/chat/ask` route handlers, followed by proofs
of the specified properties.

Modelling conventions: `Date.now()` is passed explicitly as a `now : Nat`
parameter (milliseconds); the JS `Map` of sessions is an insertion-ordered
association list; mutation is explicit state passing.  Timestamps use `Nat`
subtraction: for `now < lastAccess` JS computes a negative difference and
`negative > ttl` is false, while `Nat` truncates to `0` and `0 > ttl` is
false, so the two agree on every expiry test.  All strings involved are
ASCII, where the JS UTF-16 `length` agrees with the Lean `String.length`.
-/

namespace BandwidthBuddy

/-- A chat message, the object literal form used throughout the source. -/
structure Msg where
  role : String
  content : String
deriving DecidableEq

/-- A chat session, the object built by `createSession`. -/
structure Session where
  messages : List Msg
  createdAt : Nat
  lastAccess : Nat
  packetId : String
deriving DecidableEq

/-- The `this.sessions` JS `Map`, as an insertion-ordered association list. -/
abbrev Store := List (String × Session)

/-- JS `Map.get`: the value stored under `k`, if any. -/
def mapGet (st : Store) (k : String) : Option Session :=
  match st with
  | [] => none
  | (k2, s) :: rest => if k2 = k then some s else mapGet rest k

/-- JS `Map.set`: replaces the entry in place when present, appends otherwise. -/
def mapSet (st : Store) (k : String) (s : Session) : Store :=
  match st with
  | [] => [(k, s)]
  | (k2, s2) :: rest => if k2 = k then (k, s) :: rest else (k2, s2) :: mapSet rest k s

/-- JS `Map.delete`. -/
def mapDelete (st : Store) (k : String) : Store :=
  match st with
  | [] => []
  | (k2, s2) :: rest => if k2 = k then rest else (k2, s2) :: mapDelete rest k

/-- `const CHAT_SESSION_TTL = 3600000` (one hour, in milliseconds). -/
def CHAT_SESSION_TTL : Nat := 3600000

/-- `this.maxContextTokens = 6000`. -/
def maxContextTokens : Nat := 6000

/-- `this.charsPerToken = 4`. -/
def charsPerToken : Nat := 4

/-- `const SYSTEM_PROMPT`, the evaluation-mode instruction text (template
literal contents, newlines written as escapes). -/
def SYSTEM_PROMPT : String :=
  "\nYou are a network security analyst. Evaluate ONLY the TARGET PACKET marked in the input. Other packets are context only.\n\nREQUIRED RESPONSE FORMAT (you MUST include all these fields in this order):\n\nPACKET_IDENTIFICATION: Evaluating Packet ID: [id], Protocol: [protocol], Source: [src]:[port], Destination: [dst]:[port], Timestamp: [time]\n\nSEVERITY: [number 0-100]\n(0 = harmless, 100 = extremely dangerous/threatening)\nYOU NEED TO PROVIDE SEVERITY AS A PERCENTAGE BETWEEN 0 AND 100 (ONLY THE NUMBER, NO OTHER TEXT)\nCONFIDENCE: [number 0-100]\nYOU NEED TO PROVIDE CONFIDENCE AS A PERCENTAGE BETWEEN 0 AND 100 (ONLY THE NUMBER, NO OTHER TEXT)\n(0 = uncertain, 100 = completely certain)\n\nDO NOT USE ANY LANGUAGE THAT IS NOT ENGLISH\n\n" ++
  "RATIONALE: [3-4 sentences justifying your severity and confidence ratings, explaining what the connection might serve, and potential further action]\n\nCRITICAL REQUIREMENTS:\n- SEVERITY and CONFIDENCE MUST be the FIRST two fields after PACKET_IDENTIFICATION\n- Both must be numeric values 0-100 (not words like \"low\" or \"high\")\n- ABSOLUTELY NO MARKDOWN - NO ASTERISKS (*) ANYWHERE in your response\n- Use plain text only with field names in ALL CAPS followed by a colon\n"

/-- `const CHAT_SYSTEM_PROMPT`, the conversational-mode instruction text. -/
def CHAT_SYSTEM_PROMPT : String :=
  "\nYou are a network security analyst helping a user understand a packet evaluation. \nYou have already evaluated a packet and provided an initial assessment.\n\nCRITICAL RESTRICTION: You MUST ONLY respond to questions about cybersecurity, network security, packet analysis, threat assessment, and related security topics. \n\nIf the user asks about anything unrelated to cybersecurity or network security (e.g., general computing, unrelated topics, personal questions, etc.), politely decline and redirect them to ask about the packet\x27s security implications instead.\n\n" ++
  "The user may ask follow-up questions about:\n- The packet\x27s threat level and why\n- What the packet might be doing from a security perspective\n- Security recommendations for further action\n- Technical security details about the packet\n- Comparison with other packets from a security standpoint\n- Potential vulnerabilities or attack vectors\n- Network security best practices related to this packet\n\nAnswer their questions clearly and concisely, referencing the packet details when relevant.\nYou can reference the initial evaluation if needed, but focus on answering the current question.\n\nRemember: ONLY answer cybersecurity and network security questions. Decline all other topics.\n"

/-- The whitespace class removed by the JS `String.prototype.trim` (the ASCII
part, which covers every string the program trims). -/
def isJsWhitespace (c : Char) : Bool :=
  c == ' ' || c == '\t' || c == '\n' || c == '\r' || c == '\x0b' || c == '\x0c'

/-- JS `String.prototype.trim`: strip leading and trailing whitespace. -/
def jsTrim (s : String) : String :=
  ⟨((s.data.dropWhile isJsWhitespace).reverse.dropWhile isJsWhitespace).reverse⟩

/-- One character of the string escaping performed by `JSON.stringify`. -/
def jsonEscapeChar (c : Char) : List Char :=
  if c = '"' then ['\\', '"']
  else if c = '\\' then ['\\', '\\']
  else if c = '\n' then ['\\', 'n']
  else if c = '\t' then ['\\', 't']
  else if c = '\r' then ['\\', 'r']
  else if c = '\x08' then ['\\', 'b']
  else if c = '\x0c' then ['\\', 'f']
  else if c.toNat < 32 then
    ['\\', 'u', '0', '0',
      (if c.toNat / 16 < 10 then Char.ofNat (48 + c.toNat / 16) else Char.ofNat (87 + c.toNat / 16)),
      (if c.toNat % 16 < 10 then Char.ofNat (48 + c.toNat % 16) else Char.ofNat (87 + c.toNat % 16))]
  else [c]

/-- `JSON.stringify` string escaping, characterwise. -/
def jsonEscapeList : List Char → List Char
  | [] => []
  | c :: cs => jsonEscapeChar c ++ jsonEscapeList cs

/-- The escaped body of a JSON string literal for `s`. -/
def jsonEscape (s : String) : String :=
  ⟨jsonEscapeList s.data⟩

/-- `JSON.stringify(msg)` for a `\x7b role, content \x7d` message object
(property order is insertion order: `role` first, then `content`). -/
def jsonStringify (m : Msg) : String :=
  "\x7b\"role\":\"" ++ jsonEscape m.role ++ "\",\"content\":\"" ++ jsonEscape m.content ++ "\"\x7d"

/-- `estimateTokens(text)`: `Math.ceil(text.length / this.charsPerToken)`. -/
def estimateTokens (text : String) : Nat :=
  (text.length + charsPerToken - 1) / charsPerToken

/-- The token estimate of one message, `estimateTokens(JSON.stringify(msg))`,
as used by `getTotalTokens` and `trimToContextWindow`. -/
def msgTokens (m : Msg) : Nat :=
  estimateTokens (jsonStringify m)

/-- `getTotalTokens(messages)`: the running total accumulated over the array. -/
def getTotalTokens (messages : List Msg) : Nat :=
  messages.foldl (fun total m => total + msgTokens m) 0

/-- The newest-to-oldest accumulation loop inside `trimToContextWindow`:
walks the reversed non-anchor messages, keeps a message while the running
total stays within `availableTokens`, and breaks at the first overflow. -/
def trimLoop (availableTokens : Int) : List Msg → Nat → List Msg
  | [], _ => []
  | m :: rest, totalTokens =>
    if ((totalTokens + msgTokens m : Nat) : Int) ≤ availableTokens then
      m :: trimLoop availableTokens rest (totalTokens + msgTokens m)
    else []

/-- `trimToContextWindow(messages)`: always keeps `messages[0]` (the system
prompt); when the system prompt alone exceeds `maxContextTokens - 500` it
returns just the system prompt; otherwise it fills
`availableTokens = maxContextTokens - systemTokens - 500` newest first and
reassembles in chronological order. -/
def trimToContextWindow (messages : List Msg) : List Msg :=
  match messages with
  | [] => []
  | systemPrompt :: otherMessages =>
    if msgTokens systemPrompt > maxContextTokens - 500 then [systemPrompt]
    else
      systemPrompt ::
        (trimLoop ((maxContextTokens : Int) - msgTokens systemPrompt - 500)
          otherMessages.reverse 0).reverse

/-- `getSession(packetId)`: returns the stored session when live; deletes it
and returns nothing when its idle time exceeds the ttl. -/
def getSession (ttl now : Nat) (st : Store) (k : String) : Option Session × Store :=
  match mapGet st k with
  | none => (none, st)
  | some s => if now - s.lastAccess > ttl then (none, mapDelete st k) else (some s, st)

/-- `createSession(packetId, initialSystemPrompt)`: a fresh session whose sole
message is the trimmed system prompt, inserted into the map. -/
def createSession (now : Nat) (st : Store) (k : String) (initialSystemPrompt : String) :
    Session × Store :=
  let s : Session :=
    { messages := [⟨"system", jsTrim initialSystemPrompt⟩]
      createdAt := now
      lastAccess := now
      packetId := k }
  (s, mapSet st k s)

/-- JS truthiness of `systemPrompt || defaultValue` for a nullable string. -/
def jsOrString (o : Option String) (d : String) : String :=
  match o with
  | some s => if s = "" then d else s
  | none => d

/-- `addMessage(packetId, role, content, systemPrompt)`: appends to the live
session, or silently creates one first (evaluation prompt for a user message
on an absent key, chat prompt otherwise), updating `lastAccess` to now. -/
def addMessage (ttl now : Nat) (st : Store) (k role content : String)
    (systemPrompt : Option String) : Session × Store :=
  match getSession ttl now st k with
  | (some s, st1) =>
    let s2 := { s with messages := s.messages ++ [⟨role, content⟩], lastAccess := now }
    (s2, mapSet st1 k s2)
  | (none, st1) =>
    let prompt := jsOrString systemPrompt
      (if role = "user" ∧ mapGet st1 k = none then SYSTEM_PROMPT else CHAT_SYSTEM_PROMPT)
    let created := createSession now st1 k prompt
    let s2 := { created.1 with
                  messages := created.1.messages ++ [⟨role, content⟩], lastAccess := now }
    (s2, mapSet created.2 k s2)

/-- `getMessages(packetId)`: returns the session messages, first replacing the
stored array by its trim when the total estimate exceeds `maxContextTokens`;
`lastAccess` is not touched. -/
def getMessages (ttl now : Nat) (st : Store) (k : String) : Option (List Msg) × Store :=
  match getSession ttl now st k with
  | (none, st1) => (none, st1)
  | (some s, st1) =>
    if getTotalTokens s.messages > maxContextTokens then
      let s2 := { s with messages := trimToContextWindow s.messages }
      (some s2.messages, mapSet st1 k s2)
    else (some s.messages, st1)

/-- `cleanupOldSessions()`: the periodic sweep deleting every session whose
idle time exceeds the ttl. -/
def cleanupOldSessions (ttl now : Nat) (st : Store) : Store :=
  st.filter (fun p => decide (now - p.2.lastAccess ≤ ttl))

/-- One store operation on a fixed key: an `addMessage` call or a
`getMessages` call, each performed at its own clock reading. -/
inductive SOp where
  | append (role content : String) (systemPrompt : Option String)
  | read

/-- Apply one clocked operation to the store. -/
def applyOp (ttl : Nat) (k : String) (st : Store) : Nat × SOp → Store
  | (now, SOp.append role content sp) => (addMessage ttl now st k role content sp).2
  | (now, SOp.read) => (getMessages ttl now st k).2

/-- Run a sequence of clocked operations against the store. -/
def runOps (ttl : Nat) (k : String) (ops : List (Nat × SOp)) (st : Store) : Store :=
  ops.foldl (applyOp ttl k) st

/-- The message an operation appends, if any. -/
def opAppends : SOp → Option Msg
  | SOp.append role content _ => some ⟨role, content⟩
  | SOp.read => none

/-- The session-store side of one `/api/evaluate` request
(`evaluatePacketWithContext`): read, create with the evaluation prompt when
absent, append the user message, read again, append the model response. -/
def evaluateFlow (ttl now : Nat) (st : Store) (k userMessage response : String) : Store :=
  let st1 :=
    match getMessages ttl now st k with
    | (none, stA) => (getMessages ttl now (createSession now stA k SYSTEM_PROMPT).2 k).2
    | (some _, stA) => stA
  let st2 := (addMessage ttl now st1 k "user" userMessage none).2
  let st3 := (getMessages ttl now st2 k).2
  (addMessage ttl now st3 k "assistant" response none).2

/-- The session-store side of one `/api/chat/ask` request: read (404 when
absent), rewrite the anchor to the chat prompt when exactly three messages are
stored, append the trimmed question, read again (this is what is sent to the
model), append the model response. -/
def chatAsk (ttl now : Nat) (st : Store) (k question response : String) :
    Option (List Msg) × Store :=
  match getMessages ttl now st k with
  | (none, st1) => (none, st1)
  | (some messages, st1) =>
    let st2 :=
      if messages.length = 3 then
        match mapGet st1 k with
        | some s =>
          mapSet st1 k { s with messages := ⟨"system", jsTrim CHAT_SYSTEM_PROMPT⟩ :: messages.tail }
        | none => st1
      else st1
    let st3 := (addMessage ttl now st2 k "user" (jsTrim question) none).2
    let read2 := getMessages ttl now st3 k
    let st5 := (addMessage ttl now read2.2 k "assistant" response none).2
    (read2.1, st5)

/-- Key uniqueness, the JS `Map` well-formedness of the association-list model. -/
def KeysNodup (st : Store) : Prop :=
  (st.map Prod.fst).Nodup

/-- Invariant: the session stored under `k`, when present, carries a system
(anchor) message at index 0. -/
def AnchoredAt (k : String) (st : Store) : Prop :=
  ∀ s, mapGet st k = some s → ∃ c rest, s.messages = Msg.mk "system" c :: rest

/-- Invariant: the message `m` does not occur in the session stored under `k`. -/
def ExcludesAt (m : Msg) (k : String) (st : Store) : Prop :=
  ∀ s, mapGet st k = some s → m ∉ s.messages

/-- The anchor of the session stored under `k`: its message at index 0. -/
def anchorAt (st : Store) (k : String) : Option Msg :=
  (mapGet st k).bind (fun s => s.messages.head?)

/-- The anchor message a session starts with in the evaluation flow. -/
def sysMsg : Msg := ⟨"system", jsTrim SYSTEM_PROMPT⟩

/-- The anchor message written by the mode switch of the follow-up handler. -/
def chatMsg : Msg := ⟨"system", jsTrim CHAT_SYSTEM_PROMPT⟩

/-- A conversation message of estimated cost 1100 token units. -/
def c5U : Msg := ⟨"user", ⟨List.replicate 4369 'a'⟩⟩

/-- A session whose total estimate lies strictly between budget minus reserve
and the budget itself. -/
def c5S : Session := ⟨[⟨"system", "x"⟩, c5U, c5U, c5U, c5U, c5U], 0, 0, "p"⟩

/-- Store holding only `c5S`. -/
def c5St : Store := [("p", c5S)]

/-- A small live session last touched at time 5. -/
def c6S : Session := ⟨[⟨"system", "x"⟩, ⟨"user", "hi"⟩], 5, 5, "p"⟩

/-- Store holding only `c6S`. -/
def c6St : Store := [("p", c6S)]

/-- A session last touched at time 0, for the expiry example. -/
def c8S : Session := ⟨[⟨"system", "x"⟩], 0, 0, "p"⟩

/-- Store holding only `c8S`. -/
def c8St : Store := [("p", c8S)]

/-- A session whose total estimate exceeds the budget. -/
def c10S : Session := ⟨[⟨"system", "x"⟩, ⟨"user", ⟨List.replicate 24000 'a'⟩⟩], 0, 0, "p"⟩

/-- Store holding only `c10S`. -/
def c10St : Store := [("p", c10S)]

/-- A session holding exactly the anchor plus one evaluation exchange. -/
def c7WS : Session := ⟨[⟨"system", "x"⟩, ⟨"user", "hi"⟩, ⟨"assistant", "ok"⟩], 0, 0, "p"⟩

/-- Store holding only `c7WS`. -/
def c7WSt : Store := [("p", c7WS)]

/-- The user message of the first evaluation in the C7 trace. -/
def m_u1 : Msg := ⟨"user", "u1"⟩

/-- The assistant message of the first evaluation in the C7 trace. -/
def m_a1 : Msg := ⟨"assistant", "a1"⟩

/-- The user message of the repeated evaluation in the C7 trace. -/
def m_u2 : Msg := ⟨"user", "u2"⟩

/-- The assistant message of the repeated evaluation in the C7 trace. -/
def m_a2 : Msg := ⟨"assistant", "a2"⟩

/-- A session of the C7 trace holding the given messages, created at time 0. -/
def c7Ses (msgs : List Msg) : Session := ⟨msgs, 0, 0, "p"⟩

/-- The singleton store holding `c7Ses msgs`. -/
def c7Store (msgs : List Msg) : Store := [("p", c7Ses msgs)]

/-- The store after a first evaluation of packet `p`. -/
def c7St1 : Store := evaluateFlow CHAT_SESSION_TTL 0 ([] : Store) "p" "u1" "a1"

/-- The store after the same packet is evaluated a second time. -/
def c7St2 : Store := evaluateFlow CHAT_SESSION_TTL 0 c7St1 "p" "u2" "a2"

/-- The follow-up question asked after the two evaluations. -/
def c7Res : Option (List Msg) × Store := chatAsk CHAT_SESSION_TTL 0 c7St2 "p" "q" "r1"

/-! Association-list lemmas for the JS `Map` operations. -/

theorem mapGet_mapSet_self (st : Store) (k : String) (s : Session) :
    mapGet (mapSet st k s) k = some s := by
  induction st with
  | nil => simp [mapSet, mapGet]
  | cons p rest ih =>
    by_cases h : p.1 = k
    · simp [mapSet, mapGet, h]
    · simp [mapSet, mapGet, h, ih]

theorem mapSet_mapSet (st : Store) (k : String) (a b : Session) :
    mapSet (mapSet st k a) k b = mapSet st k b := by
  induction st with
  | nil => simp [mapSet]
  | cons p rest ih =>
    by_cases h : p.1 = k
    · simp [mapSet, h]
    · simp [mapSet, h, ih]

theorem mapGet_eq_none_of_not_mem (st : Store) (k : String)
    (h : k ∉ st.map Prod.fst) : mapGet st k = none := by
  induction st with
  | nil => rfl
  | cons p rest ih =>
    simp only [List.map_cons, List.mem_cons, not_or] at h
    have hk : p.1 ≠ k := fun hc => h.1 hc.symm
    simp [mapGet, hk, ih h.2]

theorem mapGet_filter_eq_none (p : String × Session → Bool) (st : Store) (k : String)
    (hnd : (st.map Prod.fst).Nodup) (s : Session)
    (hget : mapGet st k = some s) (hp : p (k, s) = false) :
    mapGet (st.filter p) k = none := by
  induction st with
  | nil => simp [mapGet] at hget
  | cons q rest ih =>
    simp only [List.map_cons, List.nodup_cons] at hnd
    by_cases h : q.1 = k
    · subst h
      simp only [mapGet, if_pos rfl, Option.some.injEq] at hget
      have hq : q = (q.1, s) := by
        cases q; cases hget; rfl
      have hpq : ¬ p q := by rw [hq]; simp [hp]
      rw [List.filter_cons_of_neg hpq]
      apply mapGet_eq_none_of_not_mem
      intro hmem
      obtain ⟨e, he, hefst⟩ := List.mem_map.1 hmem
      apply hnd.1
      rw [← hefst]
      exact List.mem_map_of_mem Prod.fst (List.mem_of_mem_filter he)
    · simp only [mapGet, if_neg h] at hget
      have hrec := ih hnd.2 hget
      by_cases hpq : p q
      · rw [List.filter_cons_of_pos hpq]
        simp [mapGet, h, hrec]
      · rw [List.filter_cons_of_neg hpq]
        exact hrec

/-! Token-count arithmetic. -/

theorem foldl_tokens (l : List Msg) : ∀ t : Nat,
    l.foldl (fun total m => total + msgTokens m) t = t + (l.map msgTokens).sum := by
  induction l with
  | nil => intro t; simp
  | cons m rest ih => intro t; simp [List.foldl_cons, ih, add_assoc]

theorem getTotalTokens_eq_sum (l : List Msg) :
    getTotalTokens l = (l.map msgTokens).sum := by
  simpa using foldl_tokens l 0

theorem getTotalTokens_nil : getTotalTokens [] = 0 := rfl

theorem getTotalTokens_cons (m : Msg) (l : List Msg) :
    getTotalTokens (m :: l) = msgTokens m + getTotalTokens l := by
  simp [getTotalTokens_eq_sum]

theorem getTotalTokens_reverse (l : List Msg) :
    getTotalTokens l.reverse = getTotalTokens l := by
  simp [getTotalTokens_eq_sum, List.sum_reverse]

/-! Length bounds used to estimate the cost of the large prompt messages
without evaluating the escape character by character. -/

theorem jsonEscapeChar_length_le (c : Char) : (jsonEscapeChar c).length ≤ 6 := by
  unfold jsonEscapeChar
  split_ifs <;> simp only [List.length_cons, List.length_nil] <;> omega

theorem jsonEscapeList_length_le (l : List Char) :
    (jsonEscapeList l).length ≤ 6 * l.length := by
  induction l with
  | nil => simp [jsonEscapeList]
  | cons c cs ih =>
    simp only [jsonEscapeList, List.length_append, List.length_cons]
    have := jsonEscapeChar_length_le c
    omega

theorem jsonEscape_length_le (s : String) : (jsonEscape s).length ≤ 6 * s.length :=
  jsonEscapeList_length_le s.data

theorem length_dropWhile_le' (p : Char → Bool) (l : List Char) :
    (l.dropWhile p).length ≤ l.length := by
  induction l with
  | nil => simp
  | cons c cs ih =>
    by_cases h : p c
    · simp only [List.dropWhile, h]
      exact Nat.le_succ_of_le ih
    · simp [List.dropWhile, h]

theorem jsTrim_length_le (s : String) : (jsTrim s).length ≤ s.length := by
  simp only [jsTrim, String.length]
  calc (((s.data.dropWhile isJsWhitespace).reverse.dropWhile isJsWhitespace).reverse).length
      = ((s.data.dropWhile isJsWhitespace).reverse.dropWhile isJsWhitespace).length := by
        simp
    _ ≤ (s.data.dropWhile isJsWhitespace).reverse.length := length_dropWhile_le' _ _
    _ = (s.data.dropWhile isJsWhitespace).length := by simp
    _ ≤ s.data.length := length_dropWhile_le' _ _

theorem jsonStringify_length (m : Msg) :
    (jsonStringify m).length =
      24 + (jsonEscape m.role).length + (jsonEscape m.content).length := by
  have h1 : ("\x7b\"role\":\"" : String).length = 9 := by decide
  have h2 : ("\",\"content\":\"" : String).length = 13 := by decide
  have h3 : ("\"\x7d" : String).length = 2 := by decide
  simp only [jsonStringify, String.length_append, h1, h2, h3]
  omega

theorem msgTokens_le_of_lengths (m : Msg) (a b : Nat)
    (hr : (jsonEscape m.role).length ≤ a) (hc : (jsonEscape m.content).length ≤ b) :
    msgTokens m ≤ (27 + a + b) / 4 := by
  have hlen := jsonStringify_length m
  simp only [msgTokens, estimateTokens, charsPerToken]
  omega

/-! Exact token counts for messages whose content is a run of `a` characters,
used to build concrete large inputs without evaluating the escape. -/

theorem jsonEscapeList_replicate_a (n : Nat) :
    jsonEscapeList (List.replicate n 'a') = List.replicate n 'a' := by
  induction n with
  | zero => rfl
  | succ n ih =>
    have hchar : jsonEscapeChar 'a' = ['a'] := by decide
    simp [List.replicate_succ, jsonEscapeList, hchar, ih]

theorem msgTokens_user_replicate (n : Nat) :
    msgTokens ⟨"user", ⟨List.replicate n 'a'⟩⟩ = (n + 31) / 4 := by
  have hrole : (jsonEscape "user").length = 4 := by decide
  have hcontent : (jsonEscape ⟨List.replicate n 'a'⟩).length = n := by
    show (jsonEscapeList (List.replicate n 'a')).length = n
    rw [jsonEscapeList_replicate_a]
    exact List.length_replicate n 'a'
  have hlen := jsonStringify_length ⟨"user", ⟨List.replicate n 'a'⟩⟩
  simp only [msgTokens, estimateTokens, charsPerToken] at *
  omega

/-! Structure of the trimming algorithm. -/

theorem trimLoop_eq_take (a : Int) : ∀ (l : List Msg) (t : Nat),
    ∃ n, n ≤ l.length ∧ trimLoop a l t = l.take n := by
  intro l
  induction l with
  | nil => intro t; exact ⟨0, Nat.le_refl 0, rfl⟩
  | cons m rest ih =>
    intro t
    by_cases h : ((t + msgTokens m : Nat) : Int) ≤ a
    · obtain ⟨n, hn, heq⟩ := ih (t + msgTokens m)
      refine ⟨n + 1, by simpa using Nat.succ_le_succ hn, ?_⟩
      simp only [trimLoop]
      rw [if_pos h, heq]
      rfl
    · refine ⟨0, Nat.zero_le _, ?_⟩
      simp only [trimLoop]
      rw [if_neg h]
      rfl

theorem trimLoop_total_le (a : Int) : ∀ (l : List Msg) (t : Nat),
    (t : Int) ≤ a → (t : Int) + getTotalTokens (trimLoop a l t) ≤ a := by
  intro l
  induction l with
  | nil => intro t ht; simpa [trimLoop, getTotalTokens_nil] using ht
  | cons m rest ih =>
    intro t ht
    by_cases h : ((t + msgTokens m : Nat) : Int) ≤ a
    · have hrec := ih (t + msgTokens m) h
      simp only [trimLoop]
      rw [if_pos h]
      simp only [getTotalTokens_cons]
      push_cast at hrec ⊢
      omega
    · simp only [trimLoop]
      rw [if_neg h]
      simpa [getTotalTokens_nil] using ht

theorem trim_eq_cons_drop (a : Msg) (rest : List Msg) :
    ∃ n, trimToContextWindow (a :: rest) = a :: rest.drop n := by
  by_cases h : msgTokens a > maxContextTokens - 500
  · exact ⟨rest.length, by simp [trimToContextWindow, h, List.drop_length]⟩
  · obtain ⟨n, hn, heq⟩ :=
      trimLoop_eq_take ((maxContextTokens : Int) - msgTokens a - 500) rest.reverse 0
    refine ⟨rest.length - n, ?_⟩
    have hrev : (rest.reverse.take n).reverse = rest.drop (rest.length - n) := by
      have := List.rtake_eq_reverse_take_reverse (l := rest) (n := n)
      simp only [List.rtake] at this
      exact this.symm
    simp [trimToContextWindow, h, heq, hrev]

theorem trim_head_eq (a : Msg) (rest : List Msg) :
    ∃ tl, trimToContextWindow (a :: rest) = a :: tl := by
  obtain ⟨n, h⟩ := trim_eq_cons_drop a rest
  exact ⟨rest.drop n, h⟩

theorem trim_subset (ms : List Msg) (x : Msg)
    (hx : x ∈ trimToContextWindow ms) : x ∈ ms := by
  match ms with
  | [] => simp [trimToContextWindow] at hx
  | a :: rest =>
    obtain ⟨n, h⟩ := trim_eq_cons_drop a rest
    rw [h] at hx
    rcases List.mem_cons.1 hx with h1 | h2
    · exact h1 ▸ List.mem_cons_self a rest
    · exact List.mem_cons_of_mem a (List.drop_subset n rest h2)

theorem trim_total_le (a : Msg) (rest : List Msg)
    (h : msgTokens a ≤ maxContextTokens - 500) :
    getTotalTokens (trimToContextWindow (a :: rest)) ≤ maxContextTokens - 500 := by
  have hnotgt : ¬ msgTokens a > maxContextTokens - 500 := by omega
  have havail : (0 : Int) ≤ (maxContextTokens : Int) - msgTokens a - 500 := by
    simp only [maxContextTokens] at h ⊢
    push_cast
    omega
  have hloop := trimLoop_total_le ((maxContextTokens : Int) - msgTokens a - 500)
    rest.reverse 0 (by simpa using havail)
  simp only [Nat.cast_zero, zero_add] at hloop
  simp only [trimToContextWindow, if_neg hnotgt, getTotalTokens_cons, getTotalTokens_reverse]
  simp only [maxContextTokens] at h hloop ⊢
  omega

theorem trim_anchor_only (a : Msg) (rest : List Msg)
    (h : msgTokens a > maxContextTokens - 500) :
    trimToContextWindow (a :: rest) = [a] := by
  simp [trimToContextWindow, h]

/-! Characterization of each store operation. -/

theorem getSession_absent {ttl now : Nat} {st : Store} {k : String}
    (h : mapGet st k = none) : getSession ttl now st k = (none, st) := by
  simp [getSession, h]

theorem getSession_live {ttl now : Nat} {st : Store} {k : String} {s : Session}
    (h : mapGet st k = some s) (hlive : now - s.lastAccess ≤ ttl) :
    getSession ttl now st k = (some s, st) := by
  simp only [getSession, h]
  rw [if_neg (by omega)]

theorem getSession_expired {ttl now : Nat} {st : Store} {k : String} {s : Session}
    (h : mapGet st k = some s) (hexp : now - s.lastAccess > ttl) :
    getSession ttl now st k = (none, mapDelete st k) := by
  simp only [getSession, h]
  rw [if_pos hexp]

theorem getMessages_absent {ttl now : Nat} {st : Store} {k : String}
    (h : mapGet st k = none) : getMessages ttl now st k = (none, st) := by
  simp [getMessages, getSession_absent h]

theorem getMessages_live_small {ttl now : Nat} {st : Store} {k : String} {s : Session}
    (h : mapGet st k = some s) (hlive : now - s.lastAccess ≤ ttl)
    (hsmall : getTotalTokens s.messages ≤ maxContextTokens) :
    getMessages ttl now st k = (some s.messages, st) := by
  simp only [getMessages, getSession_live h hlive]
  rw [if_neg (by omega)]

theorem getMessages_live_big {ttl now : Nat} {st : Store} {k : String} {s : Session}
    (h : mapGet st k = some s) (hlive : now - s.lastAccess ≤ ttl)
    (hbig : getTotalTokens s.messages > maxContextTokens) :
    getMessages ttl now st k =
      (some (trimToContextWindow s.messages),
        mapSet st k { s with messages := trimToContextWindow s.messages }) := by
  simp only [getMessages, getSession_live h hlive]
  rw [if_pos hbig]

theorem addMessage_live {ttl now : Nat} {st : Store} {k role content : String}
    {sp : Option String} {s : Session}
    (h : mapGet st k = some s) (hlive : now - s.lastAccess ≤ ttl) :
    addMessage ttl now st k role content sp =
      ({ s with messages := s.messages ++ [⟨role, content⟩], lastAccess := now },
        mapSet st k { s with messages := s.messages ++ [⟨role, content⟩], lastAccess := now }) := by
  simp only [addMessage, getSession_live h hlive]

theorem addMessage_absent {ttl now : Nat} {st : Store} {k role content : String}
    {sp : Option String}
    (h : mapGet st k = none) :
    addMessage ttl now st k role content sp =
      (⟨[⟨"system", jsTrim (jsOrString sp
            (if role = "user" then SYSTEM_PROMPT else CHAT_SYSTEM_PROMPT))⟩,
          ⟨role, content⟩], now, now, k⟩,
        mapSet st k
          ⟨[⟨"system", jsTrim (jsOrString sp
              (if role = "user" then SYSTEM_PROMPT else CHAT_SYSTEM_PROMPT))⟩,
            ⟨role, content⟩], now, now, k⟩) := by
  simp only [addMessage, getSession_absent h, h, and_true, createSession]
  simp [mapSet_mapSet]

theorem addMessage_expired {ttl now : Nat} {st : Store} {k role content : String}
    {sp : Option String} {s : Session}
    (h : mapGet st k = some s) (hexp : now - s.lastAccess > ttl) :
    addMessage ttl now st k role content sp =
      (⟨[⟨"system", jsTrim (jsOrString sp
            (if role = "user" ∧ mapGet (mapDelete st k) k = none
              then SYSTEM_PROMPT else CHAT_SYSTEM_PROMPT))⟩,
          ⟨role, content⟩], now, now, k⟩,
        mapSet (mapDelete st k) k
          ⟨[⟨"system", jsTrim (jsOrString sp
              (if role = "user" ∧ mapGet (mapDelete st k) k = none
                then SYSTEM_PROMPT else CHAT_SYSTEM_PROMPT))⟩,
            ⟨role, content⟩], now, now, k⟩) := by
  simp only [addMessage, getSession_expired h hexp, createSession]
  simp [mapSet_mapSet]

theorem getMessages_expired {ttl now : Nat} {st : Store} {k : String} {s : Session}
    (h : mapGet st k = some s) (hexp : now - s.lastAccess > ttl) :
    getMessages ttl now st k = (none, mapDelete st k) := by
  simp [getMessages, getSession_expired h hexp]

/-! Well-formedness (unique keys) is preserved by the map operations. -/

theorem mem_keys_mapSet {st : Store} {k k2 : String} {s : Session}
    (h : k2 ∈ (mapSet st k s).map Prod.fst) :
    k2 ∈ st.map Prod.fst ∨ k2 = k := by
  induction st with
  | nil => simpa [mapSet] using h
  | cons q rest ih =>
    by_cases hq : q.1 = k
    · simp only [mapSet, if_pos hq, List.map_cons, List.mem_cons] at h
      rcases h with h | h
      · exact Or.inr h
      · refine Or.inl ?_
        simp only [List.map_cons, List.mem_cons]
        exact Or.inr h
    · simp only [mapSet, if_neg hq, List.map_cons, List.mem_cons] at h
      rcases h with h | h
      · refine Or.inl ?_
        simp only [List.map_cons, List.mem_cons]
        exact Or.inl h
      · rcases ih h with h2 | h2
        · refine Or.inl ?_
          simp only [List.map_cons, List.mem_cons]
          exact Or.inr h2
        · exact Or.inr h2

theorem keysNodup_mapSet {st : Store} {k : String} {s : Session}
    (hnd : KeysNodup st) : KeysNodup (mapSet st k s) := by
  induction st with
  | nil => simp [KeysNodup, mapSet]
  | cons q rest ih =>
    simp only [KeysNodup, List.map_cons, List.nodup_cons] at hnd
    by_cases hq : q.1 = k
    · simp only [KeysNodup, mapSet, if_pos hq, List.map_cons, List.nodup_cons]
      exact ⟨by rw [← hq]; exact hnd.1, hnd.2⟩
    · simp only [KeysNodup, mapSet, if_neg hq, List.map_cons, List.nodup_cons]
      refine ⟨?_, ih hnd.2⟩
      intro hmem
      rcases mem_keys_mapSet hmem with h | h
      · exact hnd.1 h
      · exact hq h

theorem mapDelete_sublist (st : Store) (k : String) :
    List.Sublist (mapDelete st k) st := by
  induction st with
  | nil => simp [mapDelete]
  | cons q rest ih =>
    by_cases hq : q.1 = k
    · simp only [mapDelete, if_pos hq]
      exact List.sublist_cons_self q rest
    · simp only [mapDelete, if_neg hq]
      exact ih.cons₂ q

theorem keysNodup_mapDelete {st : Store} {k : String}
    (hnd : KeysNodup st) : KeysNodup (mapDelete st k) :=
  List.Nodup.sublist (List.Sublist.map Prod.fst (mapDelete_sublist st k)) hnd

theorem mapGet_mapDelete_self {st : Store} {k : String}
    (hnd : KeysNodup st) : mapGet (mapDelete st k) k = none := by
  induction st with
  | nil => rfl
  | cons q rest ih =>
    simp only [KeysNodup, List.map_cons, List.nodup_cons] at hnd
    by_cases hq : q.1 = k
    · simp only [mapDelete, if_pos hq]
      apply mapGet_eq_none_of_not_mem
      rw [← hq]
      exact hnd.1
    · simp only [mapDelete, if_neg hq, mapGet, if_neg hq]
      exact ih hnd.2

/-! Preservation of well-formedness and the two session invariants by the
store operations and by arbitrary clocked operation sequences. -/

theorem keysNodup_addMessage {ttl now : Nat} {st : Store} {k role content : String}
    {sp : Option String} (hnd : KeysNodup st) :
    KeysNodup (addMessage ttl now st k role content sp).2 := by
  rcases hget : mapGet st k with _ | s
  · rw [addMessage_absent hget]
    exact keysNodup_mapSet hnd
  · by_cases hexp : now - s.lastAccess > ttl
    · rw [addMessage_expired hget hexp]
      exact keysNodup_mapSet (keysNodup_mapDelete hnd)
    · rw [addMessage_live hget (by omega)]
      exact keysNodup_mapSet hnd

theorem keysNodup_getMessages {ttl now : Nat} {st : Store} {k : String}
    (hnd : KeysNodup st) : KeysNodup (getMessages ttl now st k).2 := by
  rcases hget : mapGet st k with _ | s
  · rw [getMessages_absent hget]
    exact hnd
  · by_cases hexp : now - s.lastAccess > ttl
    · rw [getMessages_expired hget hexp]
      exact keysNodup_mapDelete hnd
    · by_cases hbig : getTotalTokens s.messages > maxContextTokens
      · rw [getMessages_live_big hget (by omega) hbig]
        exact keysNodup_mapSet hnd
      · rw [getMessages_live_small hget (by omega) (by omega)]
        exact hnd

theorem anchoredAt_mapSet {k : String} {st : Store} {s : Session}
    (hs : ∃ c rest, s.messages = Msg.mk "system" c :: rest) :
    AnchoredAt k (mapSet st k s) := by
  intro s2 h2
  rw [mapGet_mapSet_self] at h2
  cases h2
  exact hs

theorem anchoredAt_addMessage {ttl now : Nat} {st : Store} {k role content : String}
    {sp : Option String} (ha : AnchoredAt k st) :
    AnchoredAt k (addMessage ttl now st k role content sp).2 := by
  rcases hget : mapGet st k with _ | s
  · rw [addMessage_absent hget]
    exact anchoredAt_mapSet ⟨_, _, rfl⟩
  · by_cases hexp : now - s.lastAccess > ttl
    · rw [addMessage_expired hget hexp]
      exact anchoredAt_mapSet ⟨_, _, rfl⟩
    · rw [addMessage_live hget (by omega)]
      obtain ⟨c, rest, hc⟩ := ha s hget
      exact anchoredAt_mapSet ⟨c, rest ++ [⟨role, content⟩], by simp [hc]⟩

theorem anchoredAt_mapDelete {k : String} {st : Store}
    (hnd : KeysNodup st) : AnchoredAt k (mapDelete st k) := by
  intro s2 h2
  rw [mapGet_mapDelete_self hnd] at h2
  cases h2

theorem anchoredAt_getMessages {ttl now : Nat} {st : Store} {k : String}
    (hnd : KeysNodup st) (ha : AnchoredAt k st) :
    AnchoredAt k (getMessages ttl now st k).2 := by
  rcases hget : mapGet st k with _ | s
  · rw [getMessages_absent hget]
    exact ha
  · by_cases hexp : now - s.lastAccess > ttl
    · rw [getMessages_expired hget hexp]
      exact anchoredAt_mapDelete hnd
    · by_cases hbig : getTotalTokens s.messages > maxContextTokens
      · rw [getMessages_live_big hget (by omega) hbig]
        obtain ⟨c, rest, hc⟩ := ha s hget
        obtain ⟨tl, htl⟩ := trim_head_eq (Msg.mk "system" c) rest
        exact anchoredAt_mapSet ⟨c, tl, by simp [hc, htl]⟩
      · rw [getMessages_live_small hget (by omega) (by omega)]
        exact ha

theorem anchoredAt_runOps {ttl : Nat} {k : String} {ops : List (Nat × SOp)} {st : Store}
    (hnd : KeysNodup st) (ha : AnchoredAt k st) :
    KeysNodup (runOps ttl k ops st) ∧ AnchoredAt k (runOps ttl k ops st) := by
  induction ops generalizing st with
  | nil => exact ⟨hnd, ha⟩
  | cons op rest ih =>
    rcases op with ⟨now, op⟩
    cases op with
    | append role content sp =>
      exact ih (keysNodup_addMessage hnd) (anchoredAt_addMessage ha)
    | read =>
      exact ih (keysNodup_getMessages hnd) (anchoredAt_getMessages hnd ha)

theorem excludesAt_mapSet {m : Msg} {k : String} {st : Store} {s : Session}
    (hs : m ∉ s.messages) : ExcludesAt m k (mapSet st k s) := by
  intro s2 h2
  rw [mapGet_mapSet_self] at h2
  cases h2
  exact hs

theorem excludesAt_addMessage {ttl now : Nat} {st : Store} {k role content : String}
    {sp : Option String} {m : Msg}
    (hrole : m.role ≠ "system") (hne : Msg.mk role content ≠ m)
    (he : ExcludesAt m k st) :
    ExcludesAt m k (addMessage ttl now st k role content sp).2 := by
  have hfresh : ∀ p : String,
      m ∉ [Msg.mk "system" (jsTrim p), Msg.mk role content] := by
    intro p hmem
    rcases List.mem_cons.1 hmem with h1 | h1
    · exact hrole (by rw [h1])
    · rcases List.mem_cons.1 h1 with h2 | h2
      · exact hne h2.symm
      · simp at h2
  rcases hget : mapGet st k with _ | s
  · rw [addMessage_absent hget]
    exact excludesAt_mapSet (hfresh _)
  · by_cases hexp : now - s.lastAccess > ttl
    · rw [addMessage_expired hget hexp]
      exact excludesAt_mapSet (hfresh _)
    · rw [addMessage_live hget (by omega)]
      refine excludesAt_mapSet ?_
      intro hmem
      rcases List.mem_append.1 hmem with h1 | h1
      · exact he s hget h1
      · rcases List.mem_cons.1 h1 with h2 | h2
        · exact hne h2.symm
        · simp at h2

theorem excludesAt_mapDelete {m : Msg} {k : String} {st : Store}
    (hnd : KeysNodup st) : ExcludesAt m k (mapDelete st k) := by
  intro s2 h2
  rw [mapGet_mapDelete_self hnd] at h2
  cases h2

theorem excludesAt_getMessages {ttl now : Nat} {st : Store} {k : String} {m : Msg}
    (hnd : KeysNodup st) (he : ExcludesAt m k st) :
    ExcludesAt m k (getMessages ttl now st k).2 := by
  rcases hget : mapGet st k with _ | s
  · rw [getMessages_absent hget]
    exact he
  · by_cases hexp : now - s.lastAccess > ttl
    · rw [getMessages_expired hget hexp]
      exact excludesAt_mapDelete hnd
    · by_cases hbig : getTotalTokens s.messages > maxContextTokens
      · rw [getMessages_live_big hget (by omega) hbig]
        refine excludesAt_mapSet ?_
        intro hmem
        exact he s hget (trim_subset s.messages m hmem)
      · rw [getMessages_live_small hget (by omega) (by omega)]
        exact he

theorem excludesAt_runOps {ttl : Nat} {k : String} {ops : List (Nat × SOp)} {st : Store}
    {m : Msg} (hrole : m.role ≠ "system")
    (hops : ∀ q ∈ ops, opAppends q.2 ≠ some m)
    (hnd : KeysNodup st) (he : ExcludesAt m k st) :
    ExcludesAt m k (runOps ttl k ops st) := by
  induction ops generalizing st with
  | nil => exact he
  | cons op rest ih =>
    rcases op with ⟨now, op⟩
    have hops2 : ∀ q ∈ rest, opAppends q.2 ≠ some m := by
      intro q hq
      exact hops q (List.mem_cons_of_mem _ hq)
    cases op with
    | append role content sp =>
      have hne : Msg.mk role content ≠ m := by
        intro hc
        exact hops (now, SOp.append role content sp) (List.mem_cons_self _ _)
          (by simp [opAppends, hc])
      exact ih hops2 (keysNodup_addMessage hnd)
        (excludesAt_addMessage hrole hne he)
    | read =>
      exact ih hops2 (keysNodup_getMessages hnd) (excludesAt_getMessages hnd he)

/-- Claim C2: budget respect of trim.  For every message list headed by the
anchor, with the configured budget `maxContextTokens` and reserve `500`: when
the anchor alone costs at most budget minus reserve, the total estimated cost
of the trimmed list stays within budget minus reserve; when the anchor alone
costs more, the result is exactly the one-element list holding the anchor. -/
theorem C2_budget_respect (anchorMsg : Msg) (rest : List Msg) :
    (msgTokens anchorMsg ≤ maxContextTokens - 500 →
      getTotalTokens (trimToContextWindow (anchorMsg :: rest)) ≤ maxContextTokens - 500) ∧
    (msgTokens anchorMsg > maxContextTokens - 500 →
      trimToContextWindow (anchorMsg :: rest) = [anchorMsg]) :=
  ⟨fun h => trim_total_le anchorMsg rest h,
   fun h => trim_anchor_only anchorMsg rest h⟩

/-- Witness for C2 at a concrete small input. -/
theorem C2_budget_respect_witness :
    msgTokens ⟨"system", "x"⟩ ≤ maxContextTokens - 500 ∧
    getTotalTokens (trimToContextWindow [⟨"system", "x"⟩, ⟨"user", "hi"⟩]) ≤
      maxContextTokens - 500 :=
  ⟨by decide, (C2_budget_respect ⟨"system", "x"⟩ [⟨"user", "hi"⟩]).1 (by decide)⟩

/-- Claim C3: suffix property of trim.  For every input list, the non-anchor
messages kept by the trim are a contiguous chronological suffix (a `drop`) of
the non-anchor messages of the input, in their original order, below the
untouched anchor. -/
theorem C3_suffix_property (messages : List Msg) :
    ∃ n, trimToContextWindow messages = messages.take 1 ++ (messages.drop 1).drop n := by
  match messages with
  | [] => exact ⟨0, rfl⟩
  | a :: rest =>
    obtain ⟨n, h⟩ := trim_eq_cons_drop a rest
    exact ⟨n, by simpa using h⟩

/-- Claim C9: sweep idempotence.  Running `cleanupOldSessions` twice at the
same instant equals running it once; the second run deletes nothing. -/
theorem C9_sweep_idempotent (ttl now : Nat) (st : Store) :
    cleanupOldSessions ttl now (cleanupOldSessions ttl now st) =
      cleanupOldSessions ttl now st := by
  simp [cleanupOldSessions, List.filter_filter]

/-- Claim C1: anchor invariance.  Starting from a freshly created session and
running any sequence of append and read operations on its key, a successful
read returns a non-empty list whose first element is exactly the anchor
(system) message currently stored at index 0 — before and after the read, so
the trimming a read may perform never removes the anchor nor moves it away
from index 0. -/
theorem C1_anchor_invariance (ttl : Nat) (k p : String) (now0 : Nat)
    (ops : List (Nat × SOp)) (now : Nat) (msgs : List Msg) (st2 : Store)
    (hread : getMessages ttl now
        (runOps ttl k ops ((createSession now0 ([] : Store) k p).2)) k
      = (some msgs, st2)) :
    msgs ≠ [] ∧
    msgs.head? =
      (mapGet (runOps ttl k ops ((createSession now0 ([] : Store) k p).2)) k).bind
        (fun s => s.messages.head?) ∧
    (∃ s2, mapGet st2 k = some s2 ∧ s2.messages.head? = msgs.head?) ∧
    (∃ c, msgs.head? = some ⟨"system", c⟩) := by
  have hnd0 : KeysNodup ((createSession now0 ([] : Store) k p).2) := by
    simp [createSession, mapSet, KeysNodup]
  have ha0 : AnchoredAt k ((createSession now0 ([] : Store) k p).2) := by
    intro s hs
    have hs2 :
        some (⟨[⟨"system", jsTrim p⟩], now0, now0, k⟩ : Session) = some s := by
      simpa [createSession, mapSet, mapGet] using hs
    cases Option.some.inj hs2
    exact ⟨jsTrim p, [], rfl⟩
  have hstep : KeysNodup (runOps ttl k ops ((createSession now0 ([] : Store) k p).2)) ∧
      AnchoredAt k (runOps ttl k ops ((createSession now0 ([] : Store) k p).2)) :=
    anchoredAt_runOps hnd0 ha0
  obtain ⟨hnd, ha⟩ := hstep
  rcases hget : mapGet (runOps ttl k ops ((createSession now0 ([] : Store) k p).2)) k
    with _ | s
  · rw [getMessages_absent hget] at hread
    simp at hread
  · by_cases hexp : now - s.lastAccess > ttl
    · rw [getMessages_expired hget hexp] at hread
      simp at hread
    · obtain ⟨c, restm, hc⟩ := ha s hget
      by_cases hbig : getTotalTokens s.messages > maxContextTokens
      · rw [getMessages_live_big hget (by omega) hbig] at hread
        injection hread with heq1 heq2
        have hmsgs : msgs = trimToContextWindow s.messages := (Option.some.inj heq1).symm
        obtain ⟨tl, htl⟩ := trim_head_eq (Msg.mk "system" c) restm
        have hmsgs2 : msgs = Msg.mk "system" c :: tl := by rw [hmsgs, hc, htl]
        refine ⟨by simp [hmsgs2], ?_, ?_, ⟨c, by simp [hmsgs2]⟩⟩
        · simp [hmsgs2, hc]
        · refine ⟨{ s with messages := trimToContextWindow s.messages }, ?_, ?_⟩
          · rw [← heq2]
            exact mapGet_mapSet_self _ _ _
          · simp only [hmsgs, hc, htl]
      · rw [getMessages_live_small hget (by omega) (by omega)] at hread
        injection hread with heq1 heq2
        have hmsgs : msgs = s.messages := (Option.some.inj heq1).symm
        refine ⟨by simp [hmsgs, hc], ?_, ?_, ⟨c, by simp [hmsgs, hc]⟩⟩
        · simp [hmsgs]
        · exact ⟨s, by rw [← heq2]; exact hget, by rw [hmsgs]⟩

/-- Witness for C1: the empty operation sequence on a fresh session. -/
theorem C1_anchor_invariance_witness :
    getMessages CHAT_SESSION_TTL 0
        (runOps CHAT_SESSION_TTL "p" [] ((createSession 0 ([] : Store) "p" "hi").2)) "p"
      = (some [⟨"system", "hi"⟩], [("p", ⟨[⟨"system", "hi"⟩], 0, 0, "p"⟩)]) ∧
    ([(⟨"system", "hi"⟩ : Msg)] : List Msg) ≠ [] ∧
    (∃ c, ([(⟨"system", "hi"⟩ : Msg)]).head? = some ⟨"system", c⟩) := by
  refine ⟨by decide, ?_, ?_⟩
  · have h := C1_anchor_invariance CHAT_SESSION_TTL "p" "hi" 0 [] 0
      [⟨"system", "hi"⟩] [("p", ⟨[⟨"system", "hi"⟩], 0, 0, "p"⟩)] (by decide)
    exact h.1
  · have h := C1_anchor_invariance CHAT_SESSION_TTL "p" "hi" 0 [] 0
      [⟨"system", "hi"⟩] [("p", ⟨[⟨"system", "hi"⟩], 0, 0, "p"⟩)] (by decide)
    exact h.2.2.2

/-- Claim C10: read destructively rewrites history.  When the stored total
exceeds `maxContextTokens`, a read replaces the stored message list by the
trimmed list; and every non-anchor message dropped by that trim is absent from
the session state after any further sequence of appends and reads that does
not itself append that same message again. -/
theorem C10_read_destructive (ttl now : Nat) (st : Store) (k : String) (s : Session)
    (hnd : KeysNodup st)
    (hget : mapGet st k = some s) (hlive : now - s.lastAccess ≤ ttl)
    (hbig : getTotalTokens s.messages > maxContextTokens) :
    (getMessages ttl now st k).1 = some (trimToContextWindow s.messages) ∧
    (getMessages ttl now st k).2 =
      mapSet st k { s with messages := trimToContextWindow s.messages } ∧
    ∀ m : Msg, m.role ≠ "system" → m ∉ trimToContextWindow s.messages →
      ∀ ops : List (Nat × SOp), (∀ q ∈ ops, opAppends q.2 ≠ some m) →
        ∀ s2, mapGet (runOps ttl k ops (getMessages ttl now st k).2) k = some s2 →
          m ∉ s2.messages := by
  have hchar := getMessages_live_big hget hlive hbig
  refine ⟨by rw [hchar], by rw [hchar], ?_⟩
  intro m hrole hnotin ops hops s2 hs2
  have hnd2 : KeysNodup (getMessages ttl now st k).2 := keysNodup_getMessages hnd
  have he : ExcludesAt m k (getMessages ttl now st k).2 := by
    rw [hchar]
    exact excludesAt_mapSet hnotin
  exact excludesAt_runOps hrole hops hnd2 he s2 hs2

theorem c10_total : getTotalTokens c10S.messages = 6015 := by
  have h1 : msgTokens ⟨"system", "x"⟩ = 8 := by decide
  have h2 : msgTokens ⟨"user", ⟨List.replicate 24000 'a'⟩⟩ = 6007 := by
    rw [msgTokens_user_replicate]
  show getTotalTokens [⟨"system", "x"⟩, ⟨"user", ⟨List.replicate 24000 'a'⟩⟩] = 6015
  rw [getTotalTokens_cons, getTotalTokens_cons, getTotalTokens_nil, h1, h2]

/-- Witness for C10 at a concrete oversized session. -/
theorem C10_read_destructive_witness :
    KeysNodup c10St ∧ mapGet c10St "p" = some c10S ∧
    getTotalTokens c10S.messages > maxContextTokens ∧
    ((getMessages CHAT_SESSION_TTL 0 c10St "p").1 =
        some (trimToContextWindow c10S.messages) ∧
      (getMessages CHAT_SESSION_TTL 0 c10St "p").2 =
        mapSet c10St "p" { c10S with messages := trimToContextWindow c10S.messages } ∧
      ∀ m : Msg, m.role ≠ "system" → m ∉ trimToContextWindow c10S.messages →
        ∀ ops : List (Nat × SOp), (∀ q ∈ ops, opAppends q.2 ≠ some m) →
          ∀ s2, mapGet (runOps CHAT_SESSION_TTL "p" ops
              (getMessages CHAT_SESSION_TTL 0 c10St "p").2) "p" = some s2 →
            m ∉ s2.messages) := by
  have hnd : KeysNodup c10St := by
    simp [KeysNodup, c10St]
  have hbig : getTotalTokens c10S.messages > maxContextTokens := by
    rw [c10_total]
    norm_num [maxContextTokens]
  exact ⟨hnd, rfl, hbig,
    C10_read_destructive CHAT_SESSION_TTL 0 c10St "p" c10S hnd rfl (by decide) hbig⟩

/-- Counterexample for C4: an append on a key with no session and no anchor
content supplied does not fail; it silently creates a session (with the
evaluation prompt as default anchor) and stores the appended message. -/
theorem C4_cex_append_creates :
    (addMessage CHAT_SESSION_TTL 0 ([] : Store) "p1" "user" "hello" none).2 =
      [("p1", ⟨[⟨"system", jsTrim SYSTEM_PROMPT⟩, ⟨"user", "hello"⟩], 0, 0, "p1"⟩)] ∧
    mapGet (addMessage CHAT_SESSION_TTL 0 ([] : Store) "p1" "user" "hello" none).2 "p1" =
      some ⟨[⟨"system", jsTrim SYSTEM_PROMPT⟩, ⟨"user", "hello"⟩], 0, 0, "p1"⟩ :=
  ⟨rfl, rfl⟩

/-- Claim C4 (amended): append on a key with no live session and no anchor
content supplied succeeds by silently creating a session — with the evaluation
prompt as anchor for a user message on an absent key, the chat prompt
otherwise — and then appending the message; the session becomes visible in the
store. -/
theorem C4_append_autocreate (ttl now : Nat) (st : Store) (k role content : String)
    (h : mapGet st k = none) :
    (addMessage ttl now st k role content none).1 =
      ⟨[⟨"system", jsTrim (if role = "user" then SYSTEM_PROMPT else CHAT_SYSTEM_PROMPT)⟩,
        ⟨role, content⟩], now, now, k⟩ ∧
    mapGet (addMessage ttl now st k role content none).2 k =
      some (addMessage ttl now st k role content none).1 := by
  rw [addMessage_absent h]
  constructor
  · simp [jsOrString, h]
  · exact mapGet_mapSet_self ..

/-- Witness for C4 (amended) at a concrete absent key. -/
theorem C4_append_autocreate_witness :
    mapGet ([] : Store) "p1" = none ∧
    ((addMessage CHAT_SESSION_TTL 0 ([] : Store) "p1" "assistant" "hi" none).1 =
      ⟨[⟨"system", jsTrim (if "assistant" = "user" then SYSTEM_PROMPT else CHAT_SYSTEM_PROMPT)⟩,
        ⟨"assistant", "hi"⟩], 0, 0, "p1"⟩ ∧
    mapGet (addMessage CHAT_SESSION_TTL 0 ([] : Store) "p1" "assistant" "hi" none).2 "p1" =
      some (addMessage CHAT_SESSION_TTL 0 ([] : Store) "p1" "assistant" "hi" none).1) :=
  ⟨rfl, C4_append_autocreate CHAT_SESSION_TTL 0 [] "p1" "assistant" "hi" rfl⟩

theorem c5U_tokens : msgTokens c5U = 1100 := by
  show msgTokens ⟨"user", ⟨List.replicate 4369 'a'⟩⟩ = 1100
  rw [msgTokens_user_replicate]

theorem c5_total : getTotalTokens c5S.messages = 5508 := by
  have h1 : msgTokens ⟨"system", "x"⟩ = 8 := by decide
  show getTotalTokens [⟨"system", "x"⟩, c5U, c5U, c5U, c5U, c5U] = 5508
  simp [getTotalTokens_eq_sum, h1, c5U_tokens]

theorem c5_trim : trimToContextWindow c5S.messages =
    [⟨"system", "x"⟩, c5U, c5U, c5U, c5U] := by
  have h1 : msgTokens ⟨"system", "x"⟩ = 8 := by decide
  show trimToContextWindow (⟨"system", "x"⟩ :: [c5U, c5U, c5U, c5U, c5U]) = _
  norm_num [trimToContextWindow, trimLoop, h1, c5U_tokens, maxContextTokens]

/-- Counterexample for C5: a session whose total estimate lies in the open
interval between budget minus reserve and the budget is returned by the read
untrimmed — the result differs from applying the retention policy and its
total exceeds budget minus reserve. -/
theorem C5_cex_read_skips_trim :
    (getMessages CHAT_SESSION_TTL 0 c5St "p").1 = some c5S.messages ∧
    (getMessages CHAT_SESSION_TTL 0 c5St "p").2 = c5St ∧
    trimToContextWindow c5S.messages ≠ c5S.messages ∧
    getTotalTokens c5S.messages > maxContextTokens - 500 := by
  have hsmall : getTotalTokens c5S.messages ≤ maxContextTokens := by
    rw [c5_total]
    norm_num [maxContextTokens]
  have hchar : getMessages CHAT_SESSION_TTL 0 c5St "p" = (some c5S.messages, c5St) :=
    getMessages_live_small rfl (by decide) hsmall
  refine ⟨by rw [hchar], by rw [hchar], ?_, ?_⟩
  · rw [c5_trim]
    intro hcontra
    have hlen := congrArg List.length hcontra
    simp [c5S] at hlen
  · rw [c5_total]
    norm_num [maxContextTokens]

/-- Claim C5 (amended): a read re-applies the retention policy only when the
stored total estimate strictly exceeds the full budget `maxContextTokens`; in
that case it returns exactly the trim of the stored messages (which respects
budget minus reserve whenever the anchor alone does); otherwise it returns the
stored messages unchanged. -/
theorem C5_read_trim_on_overflow (ttl now : Nat) (st : Store) (k : String) (s : Session)
    (h : mapGet st k = some s) (hlive : now - s.lastAccess ≤ ttl) :
    (getTotalTokens s.messages > maxContextTokens →
      (getMessages ttl now st k).1 = some (trimToContextWindow s.messages) ∧
      (∀ anchorMsg restm, s.messages = anchorMsg :: restm →
        msgTokens anchorMsg ≤ maxContextTokens - 500 →
        getTotalTokens (trimToContextWindow s.messages) ≤ maxContextTokens - 500)) ∧
    (getTotalTokens s.messages ≤ maxContextTokens →
      (getMessages ttl now st k).1 = some s.messages) := by
  constructor
  · intro hbig
    refine ⟨by rw [getMessages_live_big h hlive hbig], ?_⟩
    intro am restm hm hle
    rw [hm]
    exact trim_total_le am restm hle
  · intro hsm
    rw [getMessages_live_small h hlive hsm]

/-- Witness for C5 (amended) at the concrete mid-band session. -/
theorem C5_read_trim_on_overflow_witness :
    mapGet c5St "p" = some c5S ∧
    getTotalTokens c5S.messages ≤ maxContextTokens ∧
    (getMessages CHAT_SESSION_TTL 0 c5St "p").1 = some c5S.messages := by
  have hsm : getTotalTokens c5S.messages ≤ maxContextTokens := by
    rw [c5_total]
    norm_num [maxContextTokens]
  exact ⟨rfl, hsm,
    (C5_read_trim_on_overflow CHAT_SESSION_TTL 0 c5St "p" c5S rfl (by decide)).2 hsm⟩

/-- Counterexample for C6: a read performed at time 10 on a session last
touched at time 5 leaves `lastAccess` at 5 — reads do not refresh the idle
timestamp. -/
theorem C6_cex_read_keeps_lastAccess :
    (getMessages CHAT_SESSION_TTL 10 c6St "p").2 = c6St ∧
    (mapGet (getMessages CHAT_SESSION_TTL 10 c6St "p").2 "p").map Session.lastAccess
      = some 5 ∧
    (mapGet (getMessages CHAT_SESSION_TTL 10 c6St "p").2 "p").map Session.lastAccess
      ≠ some 10 := by
  refine ⟨?_, ?_, ?_⟩ <;> decide

/-- Claim C6 (amended): every append sets the session `lastAccess` to the
current time and stores the updated session, while a read on a live session
leaves `lastAccess` exactly as it was. -/
theorem C6_lastAccess_semantics :
    (∀ ttl now st (k role content : String) sp,
      (addMessage ttl now st k role content sp).1.lastAccess = now ∧
      mapGet (addMessage ttl now st k role content sp).2 k =
        some (addMessage ttl now st k role content sp).1) ∧
    (∀ ttl now st (k : String) s, mapGet st k = some s → now - s.lastAccess ≤ ttl →
      (mapGet (getMessages ttl now st k).2 k).map Session.lastAccess =
        some s.lastAccess) := by
  constructor
  · intro ttl now st k role content sp
    rcases hget : mapGet st k with _ | s
    · rw [addMessage_absent hget]
      exact ⟨rfl, mapGet_mapSet_self ..⟩
    · by_cases hexp : now - s.lastAccess > ttl
      · rw [addMessage_expired hget hexp]
        exact ⟨rfl, mapGet_mapSet_self ..⟩
      · rw [addMessage_live hget (by omega)]
        exact ⟨rfl, mapGet_mapSet_self ..⟩
  · intro ttl now st k s h hlive
    by_cases hbig : getTotalTokens s.messages > maxContextTokens
    · rw [getMessages_live_big h hlive hbig]
      rw [mapGet_mapSet_self]
      rfl
    · rw [getMessages_live_small h hlive (by omega), h]
      rfl

/-- Witness for C6 (amended): an append stamps time 7; a read at time 10
leaves the stamp at `c6S.lastAccess`. -/
theorem C6_lastAccess_semantics_witness :
    (addMessage CHAT_SESSION_TTL 7 c6St "p" "user" "yo" none).1.lastAccess = 7 ∧
    mapGet c6St "p" = some c6S ∧
    10 - c6S.lastAccess ≤ CHAT_SESSION_TTL ∧
    (mapGet (getMessages CHAT_SESSION_TTL 10 c6St "p").2 "p").map Session.lastAccess =
      some c6S.lastAccess :=
  ⟨(C6_lastAccess_semantics.1 CHAT_SESSION_TTL 7 c6St "p" "user" "yo" none).1,
   rfl, by decide,
   C6_lastAccess_semantics.2 CHAT_SESSION_TTL 10 c6St "p" c6S rfl (by decide)⟩

/-- Claim C8: TTL expiration.  A session whose idle time strictly exceeds the
ttl is absent from the store after the sweep runs; thereafter a read on its
key returns nothing (SessionNotFound) leaving the store unchanged, and an
append behaves exactly as on a key that never existed: it creates a fresh
session with the default anchor. -/
theorem C8_ttl_expiration (ttl now : Nat) (st : Store) (k : String) (s : Session)
    (hnd : KeysNodup st) (hget : mapGet st k = some s)
    (hexp : now - s.lastAccess > ttl) :
    mapGet (cleanupOldSessions ttl now st) k = none ∧
    (∀ now2, getMessages ttl now2 (cleanupOldSessions ttl now st) k =
      (none, cleanupOldSessions ttl now st)) ∧
    (∀ now2 (role content : String) sp,
      (addMessage ttl now2 (cleanupOldSessions ttl now st) k role content sp).1.messages =
        [⟨"system", jsTrim (jsOrString sp
            (if role = "user" then SYSTEM_PROMPT else CHAT_SYSTEM_PROMPT))⟩,
          ⟨role, content⟩]) := by
  have hnone : mapGet (cleanupOldSessions ttl now st) k = none := by
    apply mapGet_filter_eq_none _ st k hnd s hget
    simp only [decide_eq_false_iff_not]
    omega
  refine ⟨hnone, fun now2 => getMessages_absent hnone, ?_⟩
  intro now2 role content sp
  rw [addMessage_absent hnone]

/-- Witness for C8, mirroring the example scenario of the specification:
ttl one hour, a session last touched at time 0, swept at 3601 seconds. -/
theorem C8_ttl_expiration_witness :
    KeysNodup c8St ∧ mapGet c8St "p" = some c8S ∧
    3601000 - c8S.lastAccess > CHAT_SESSION_TTL ∧
    mapGet (cleanupOldSessions CHAT_SESSION_TTL 3601000 c8St) "p" = none ∧
    getMessages CHAT_SESSION_TTL 3601000
        (cleanupOldSessions CHAT_SESSION_TTL 3601000 c8St) "p" =
      (none, cleanupOldSessions CHAT_SESSION_TTL 3601000 c8St) := by
  have h := C8_ttl_expiration CHAT_SESSION_TTL 3601000 c8St "p" c8S
    (by simp [KeysNodup, c8St]) rfl (by decide)
  exact ⟨by simp [KeysNodup, c8St], rfl, by decide, h.1, h.2.1 3601000⟩

theorem anchorAt_some {st : Store} {k : String} {s : Session}
    (h : mapGet st k = some s) : anchorAt st k = s.messages.head? := by
  simp [anchorAt, h]

theorem addMessage_anchor_step (ttl now : Nat) {st : Store} {k : String} {s : Session}
    (role content : String) (sp : Option String) {c : String} {tl : List Msg}
    (hget : mapGet st k = some s) (hlive : now - s.lastAccess ≤ ttl)
    (hm : s.messages = Msg.mk "system" c :: tl) :
    mapGet (addMessage ttl now st k role content sp).2 k =
      some { s with messages := s.messages ++ [⟨role, content⟩], lastAccess := now } ∧
    ({ s with messages := s.messages ++ [⟨role, content⟩], lastAccess := now } :
        Session).messages = Msg.mk "system" c :: (tl ++ [⟨role, content⟩]) := by
  rw [addMessage_live hget hlive]
  exact ⟨mapGet_mapSet_self .., by simp [hm]⟩

theorem getMessages_anchor_step (ttl now : Nat) {st : Store} {k : String} {s : Session}
    {c : String} {tl : List Msg}
    (hget : mapGet st k = some s) (hlive : now - s.lastAccess ≤ ttl)
    (hm : s.messages = Msg.mk "system" c :: tl) :
    ∃ s2 tl2, mapGet (getMessages ttl now st k).2 k = some s2 ∧
      s2.messages = Msg.mk "system" c :: tl2 ∧ s2.lastAccess = s.lastAccess := by
  by_cases hbig : getTotalTokens s.messages > maxContextTokens
  · rw [getMessages_live_big hget hlive hbig]
    obtain ⟨tl2, htl2⟩ := trim_head_eq (Msg.mk "system" c) tl
    refine ⟨_, tl2, mapGet_mapSet_self .., ?_, rfl⟩
    simp only [hm, htl2]
  · rw [getMessages_live_small hget hlive (by omega)]
    exact ⟨s, tl, hget, hm, rfl⟩

theorem chat_tail_anchor {ttl now : Nat} {st2 : Store} {k : String} {s2 : Session}
    {uq r c2 : String} {tl2 : List Msg}
    (hget2 : mapGet st2 k = some s2) (hlive2 : now - s2.lastAccess ≤ ttl)
    (hm2 : s2.messages = Msg.mk "system" c2 :: tl2) :
    anchorAt (addMessage ttl now
        (getMessages ttl now ((addMessage ttl now st2 k "user" uq none).2) k).2
        k "assistant" r none).2 k = some (Msg.mk "system" c2) := by
  obtain ⟨hA, hAm⟩ := addMessage_anchor_step ttl now "user" uq none hget2 hlive2 hm2
  obtain ⟨sB, tlB, hB, hBm, hBacc⟩ := getMessages_anchor_step ttl now hA
    (by change now - now ≤ ttl; omega) hAm
  obtain ⟨hC, hCm⟩ := addMessage_anchor_step ttl now "assistant" r none hB
    (by rw [hBacc]; change now - now ≤ ttl; omega) hBm
  rw [anchorAt_some hC, hCm]
  rfl

/-- Claim C7 (amended): the anchor switch performed by the follow-up handler
fires exactly when the list the read returns (the stored messages, trimmed
first when over budget) has length three, and it always writes the
conversational anchor; otherwise the anchor is left untouched.  Consequently
the anchor changes value at most once per session lifetime — the only value
ever written is the conversational one — and once the anchor is the
conversational prompt it stays so: re-running the switch is observationally
idempotent.  In particular a follow-up that finds a message count other than
three (for example after a repeated evaluation of the same packet) does not
make the session conversational. -/
theorem C7_mode_switch_behavior (ttl now : Nat) (st : Store) (k q r : String)
    (s : Session) (hget : mapGet st k = some s) (hlive : now - s.lastAccess ≤ ttl)
    (c : String) (tl : List Msg) (hm : s.messages = Msg.mk "system" c :: tl) :
    anchorAt (chatAsk ttl now st k q r).2 k =
      (if (if getTotalTokens s.messages > maxContextTokens
            then trimToContextWindow s.messages else s.messages).length = 3
        then some chatMsg else anchorAt st k) ∧
    (anchorAt st k = some chatMsg →
      anchorAt (chatAsk ttl now st k q r).2 k = some chatMsg) := by
  have hanchor : anchorAt st k = some (Msg.mk "system" c) := by
    rw [anchorAt_some hget, hm]
    rfl
  have hmain : anchorAt (chatAsk ttl now st k q r).2 k =
      (if (if getTotalTokens s.messages > maxContextTokens
            then trimToContextWindow s.messages else s.messages).length = 3
        then some chatMsg else anchorAt st k) := by
    by_cases hbig : getTotalTokens s.messages > maxContextTokens
    · obtain ⟨tlT, htlT⟩ := trim_head_eq (Msg.mk "system" c) tl
      have htrim : trimToContextWindow s.messages = Msg.mk "system" c :: tlT := by
        rw [hm, htlT]
      have hr1 := getMessages_live_big hget hlive hbig
      rw [if_pos hbig]
      simp only [chatAsk, hr1]
      have hgetT : mapGet (mapSet st k { s with messages := trimToContextWindow s.messages }) k
          = some { s with messages := trimToContextWindow s.messages } :=
        mapGet_mapSet_self ..
      by_cases hlen : (trimToContextWindow s.messages).length = 3
      · rw [if_pos hlen, if_pos hlen]
        simp only [hgetT]
        exact Eq.trans (chat_tail_anchor (mapGet_mapSet_self ..) hlive rfl) rfl
      · rw [if_neg hlen, if_neg hlen]
        exact Eq.trans (chat_tail_anchor hgetT hlive htrim) hanchor.symm
    · have hr1 := getMessages_live_small hget hlive (by omega)
      rw [if_neg hbig]
      simp only [chatAsk, hr1]
      by_cases hlen : s.messages.length = 3
      · rw [if_pos hlen, if_pos hlen]
        simp only [hget]
        exact Eq.trans (chat_tail_anchor (mapGet_mapSet_self ..) hlive rfl) rfl
      · rw [if_neg hlen, if_neg hlen]
        exact Eq.trans (chat_tail_anchor hget hlive hm) hanchor.symm
  refine ⟨hmain, fun hchat => ?_⟩
  rw [hmain]
  split
  · split
    · rfl
    · exact hchat
  · split
    · rfl
    · exact hchat

/-- Witness for C7 (amended): a live session holding exactly the anchor plus
one evaluation exchange; the follow-up switches the anchor to the
conversational prompt. -/
theorem C7_mode_switch_behavior_witness :
    mapGet c7WSt "p" = some c7WS ∧
    c7WS.messages = Msg.mk "system" "x" :: [⟨"user", "hi"⟩, ⟨"assistant", "ok"⟩] ∧
    anchorAt (chatAsk CHAT_SESSION_TTL 0 c7WSt "p" "q" "r1").2 "p" = some chatMsg := by
  have h := (C7_mode_switch_behavior CHAT_SESSION_TTL 0 c7WSt "p" "q" "r1" c7WS rfl
    (by decide) "x" [⟨"user", "hi"⟩, ⟨"assistant", "ok"⟩] rfl).1
  refine ⟨rfl, rfl, ?_⟩
  rw [h]
  have hsm3 : ¬ getTotalTokens c7WS.messages > maxContextTokens := by decide
  rw [if_neg hsm3]
  rw [if_pos (by decide : (c7WS.messages).length = 3)]

/-- Cost bound for the evaluation-prompt anchor message, derived from the
prompt length rather than by evaluating the escape character by character. -/
theorem sysMsg_tokens_le : msgTokens sysMsg ≤ 1800 := by
  have hlen : SYSTEM_PROMPT.length = 1195 := by decide
  have h1 : (jsonEscape "system").length = 6 := by decide
  have h2 : (jsonEscape (jsTrim SYSTEM_PROMPT)).length ≤ 7170 := by
    calc (jsonEscape (jsTrim SYSTEM_PROMPT)).length
        ≤ 6 * (jsTrim SYSTEM_PROMPT).length := jsonEscape_length_le _
      _ ≤ 6 * SYSTEM_PROMPT.length := by
          have := jsTrim_length_le SYSTEM_PROMPT
          omega
      _ = 7170 := by rw [hlen]
  have h3 := msgTokens_le_of_lengths sysMsg 6 7170 (le_of_eq h1) h2
  omega

theorem small_total (l : List Msg) (hsm : ∀ m ∈ l, msgTokens m ≤ 9) :
    getTotalTokens l ≤ 9 * l.length := by
  induction l with
  | nil => simp [getTotalTokens_nil]
  | cons m rest ih =>
    rw [getTotalTokens_cons]
    have h1 := hsm m (List.mem_cons_self ..)
    have h2 := ih (fun x hx => hsm x (List.mem_cons_of_mem _ hx))
    simp only [List.length_cons]
    omega

theorem sys_cons_small (l : List Msg) (hlen : l.length ≤ 10)
    (hsm : ∀ m ∈ l, msgTokens m ≤ 9) :
    getTotalTokens (sysMsg :: l) ≤ maxContextTokens := by
  rw [getTotalTokens_cons]
  have h1 := sysMsg_tokens_le
  have h2 := small_total l hsm
  simp only [maxContextTokens]
  omega

theorem c7_mapGet (msgs : List Msg) : mapGet (c7Store msgs) "p" = some (c7Ses msgs) := rfl

theorem c7_read (msgs : List Msg) (h : getTotalTokens msgs ≤ maxContextTokens) :
    getMessages CHAT_SESSION_TTL 0 (c7Store msgs) "p" = (some msgs, c7Store msgs) :=
  getMessages_live_small (c7_mapGet msgs) (Nat.zero_le _) h

theorem c7_append (msgs : List Msg) (role content : String) :
    addMessage CHAT_SESSION_TTL 0 (c7Store msgs) "p" role content none =
      (c7Ses (msgs ++ [⟨role, content⟩]), c7Store (msgs ++ [⟨role, content⟩])) := by
  rw [addMessage_live (c7_mapGet msgs) (Nat.zero_le _)]
  rfl

theorem c7St1_eq : c7St1 = c7Store [sysMsg, m_u1, m_a1] := by
  have h0 : getMessages CHAT_SESSION_TTL 0 ([] : Store) "p" = (none, ([] : Store)) :=
    getMessages_absent rfl
  have hcs : (createSession 0 ([] : Store) "p" SYSTEM_PROMPT).2 = c7Store [sysMsg] := rfl
  have h1 : getMessages CHAT_SESSION_TTL 0 (c7Store [sysMsg]) "p" =
      (some [sysMsg], c7Store [sysMsg]) :=
    c7_read [sysMsg] (sys_cons_small [] (by decide) (by decide))
  have h2 : addMessage CHAT_SESSION_TTL 0 (c7Store [sysMsg]) "p" "user" "u1" none =
      (c7Ses [sysMsg, m_u1], c7Store [sysMsg, m_u1]) :=
    c7_append [sysMsg] "user" "u1"
  have h3 : getMessages CHAT_SESSION_TTL 0 (c7Store [sysMsg, m_u1]) "p" =
      (some [sysMsg, m_u1], c7Store [sysMsg, m_u1]) :=
    c7_read [sysMsg, m_u1] (sys_cons_small [m_u1] (by decide) (by decide))
  have h4 : addMessage CHAT_SESSION_TTL 0 (c7Store [sysMsg, m_u1]) "p" "assistant" "a1" none =
      (c7Ses [sysMsg, m_u1, m_a1], c7Store [sysMsg, m_u1, m_a1]) :=
    c7_append [sysMsg, m_u1] "assistant" "a1"
  show evaluateFlow CHAT_SESSION_TTL 0 ([] : Store) "p" "u1" "a1" = _
  simp only [evaluateFlow, h0, hcs, h1, h2, h3, h4]

theorem c7St2_eq : c7St2 = c7Store [sysMsg, m_u1, m_a1, m_u2, m_a2] := by
  have h1 : getMessages CHAT_SESSION_TTL 0 (c7Store [sysMsg, m_u1, m_a1]) "p" =
      (some [sysMsg, m_u1, m_a1], c7Store [sysMsg, m_u1, m_a1]) :=
    c7_read [sysMsg, m_u1, m_a1] (sys_cons_small [m_u1, m_a1] (by decide) (by decide))
  have h2 : addMessage CHAT_SESSION_TTL 0 (c7Store [sysMsg, m_u1, m_a1])
      "p" "user" "u2" none =
      (c7Ses [sysMsg, m_u1, m_a1, m_u2], c7Store [sysMsg, m_u1, m_a1, m_u2]) :=
    c7_append [sysMsg, m_u1, m_a1] "user" "u2"
  have h3 : getMessages CHAT_SESSION_TTL 0 (c7Store [sysMsg, m_u1, m_a1, m_u2]) "p" =
      (some [sysMsg, m_u1, m_a1, m_u2], c7Store [sysMsg, m_u1, m_a1, m_u2]) :=
    c7_read [sysMsg, m_u1, m_a1, m_u2]
      (sys_cons_small [m_u1, m_a1, m_u2] (by decide) (by decide))
  have h4 : addMessage CHAT_SESSION_TTL 0 (c7Store [sysMsg, m_u1, m_a1, m_u2])
      "p" "assistant" "a2" none =
      (c7Ses [sysMsg, m_u1, m_a1, m_u2, m_a2], c7Store [sysMsg, m_u1, m_a1, m_u2, m_a2]) :=
    c7_append [sysMsg, m_u1, m_a1, m_u2] "assistant" "a2"
  show evaluateFlow CHAT_SESSION_TTL 0 c7St1 "p" "u2" "a2" = _
  rw [c7St1_eq]
  simp only [evaluateFlow, h1, h2, h3, h4]

/-- Counterexample for C7: evaluating the same packet twice is permitted by
the handlers and leaves five stored messages, so the first follow-up question
does not find exactly three messages and the switch never fires — after the
first follow-up append the anchor still carries the evaluation instructions,
which differ from the conversational instructions. -/
theorem C7_cex_mode_switch_missed :
    (mapGet c7Res.2 "p").map (fun s => s.messages.head?) = some (some sysMsg) ∧
    sysMsg ≠ chatMsg := by
  constructor
  · have hR1 : getMessages CHAT_SESSION_TTL 0 (c7Store [sysMsg, m_u1, m_a1, m_u2, m_a2])
        "p" = (some [sysMsg, m_u1, m_a1, m_u2, m_a2],
          c7Store [sysMsg, m_u1, m_a1, m_u2, m_a2]) :=
      c7_read [sysMsg, m_u1, m_a1, m_u2, m_a2]
        (sys_cons_small [m_u1, m_a1, m_u2, m_a2] (by decide) (by decide))
    have hA2 : addMessage CHAT_SESSION_TTL 0 (c7Store [sysMsg, m_u1, m_a1, m_u2, m_a2])
        "p" "user" (jsTrim "q") none =
        (c7Ses [sysMsg, m_u1, m_a1, m_u2, m_a2, ⟨"user", jsTrim "q"⟩],
          c7Store [sysMsg, m_u1, m_a1, m_u2, m_a2, ⟨"user", jsTrim "q"⟩]) :=
      c7_append [sysMsg, m_u1, m_a1, m_u2, m_a2] "user" (jsTrim "q")
    have hR2 : getMessages CHAT_SESSION_TTL 0
        (c7Store [sysMsg, m_u1, m_a1, m_u2, m_a2, ⟨"user", jsTrim "q"⟩]) "p" =
        (some [sysMsg, m_u1, m_a1, m_u2, m_a2, ⟨"user", jsTrim "q"⟩],
          c7Store [sysMsg, m_u1, m_a1, m_u2, m_a2, ⟨"user", jsTrim "q"⟩]) :=
      c7_read [sysMsg, m_u1, m_a1, m_u2, m_a2, ⟨"user", jsTrim "q"⟩]
        (sys_cons_small [m_u1, m_a1, m_u2, m_a2, ⟨"user", jsTrim "q"⟩]
          (by decide) (by decide))
    have hA3 : addMessage CHAT_SESSION_TTL 0
        (c7Store [sysMsg, m_u1, m_a1, m_u2, m_a2, ⟨"user", jsTrim "q"⟩])
        "p" "assistant" "r1" none =
        (c7Ses [sysMsg, m_u1, m_a1, m_u2, m_a2, ⟨"user", jsTrim "q"⟩, ⟨"assistant", "r1"⟩],
          c7Store [sysMsg, m_u1, m_a1, m_u2, m_a2, ⟨"user", jsTrim "q"⟩,
            ⟨"assistant", "r1"⟩]) :=
      c7_append [sysMsg, m_u1, m_a1, m_u2, m_a2, ⟨"user", jsTrim "q"⟩] "assistant" "r1"
    have hres : c7Res.2 = c7Store [sysMsg, m_u1, m_a1, m_u2, m_a2, ⟨"user", jsTrim "q"⟩,
        ⟨"assistant", "r1"⟩] := by
      show (chatAsk CHAT_SESSION_TTL 0 c7St2 "p" "q" "r1").2 = _
      rw [c7St2_eq]
      simp only [chatAsk, hR1]
      rw [if_neg (by decide :
        ¬ ([sysMsg, m_u1, m_a1, m_u2, m_a2] : List Msg).length = 3)]
      simp only [hA2, hR2, hA3]
    rw [hres]
    rfl
  · intro hcontra
    have h1 : (jsTrim SYSTEM_PROMPT).length = 1193 := by decide
    have h2 : (jsTrim CHAT_SYSTEM_PROMPT).length = 1241 := by decide
    have h3 : jsTrim SYSTEM_PROMPT = jsTrim CHAT_SYSTEM_PROMPT :=
      congrArg Msg.content hcontra
    rw [← h3] at h2
    omega


end BandwidthBuddy
